import Mathlib

/-!
Verification of the funding-record normalization pipeline of the
`indian_startup` dashboards.

The repository contains three near-duplicate dashboards (`app.py`,
`app1.py`, `app2.py`); `app1.py` and `app2.py` have byte-identical
cleaning logic, so the development embeds two variants:

* namespace `App`  — the pipeline of `app.py` (`load_data`, lines 22-103);
* namespace `App1` — the pipeline of `app1.py` (`load_data`, lines 93-146),
  identical to `app2.py`.

Modelling conventions (shallow embedding):

* A raw cell is `Option String`: `none` models a pandas `NaN` (missing
  value), `some s` a text cell.  `astype(str)` and Python `str()` render
  `NaN` as the string `"nan"`.
* Machine floats are modelled by `ℚ`.  Python `float(...)` is embedded by
  `parseFloat`, covering the decimal-literal grammar (sign, digits,
  fraction, exponent).  The literals `inf`/`nan` are mapped to `none`;
  in the source such cells are likewise excluded from the final record
  set (a `NaN` amount is dropped by `dropna`, an infinite amount by the
  `< 1000` ceiling), so the normalized output is unaffected.
* Character-level helpers (`lowerChar`, `upperChar`, `isWS`, ...) model
  the ASCII behaviour of Python's `str.lower`, `str.title`, `str.strip`;
  every value the claims touch is ASCII.
-/

namespace IndianStartup

/-- ASCII lower-casing of one character, as Python `str.lower` acts on
ASCII input. -/
def lowerChar (c : Char) : Char :=
  match c with
  | 'A' => 'a' | 'B' => 'b' | 'C' => 'c' | 'D' => 'd' | 'E' => 'e'
  | 'F' => 'f' | 'G' => 'g' | 'H' => 'h' | 'I' => 'i' | 'J' => 'j'
  | 'K' => 'k' | 'L' => 'l' | 'M' => 'm' | 'N' => 'n' | 'O' => 'o'
  | 'P' => 'p' | 'Q' => 'q' | 'R' => 'r' | 'S' => 's' | 'T' => 't'
  | 'U' => 'u' | 'V' => 'v' | 'W' => 'w' | 'X' => 'x' | 'Y' => 'y'
  | 'Z' => 'z'
  | c => c

/-- ASCII upper-casing of one character, as Python `str.upper` acts on
ASCII input (used by `str.title`). -/
def upperChar (c : Char) : Char :=
  match c with
  | 'a' => 'A' | 'b' => 'B' | 'c' => 'C' | 'd' => 'D' | 'e' => 'E'
  | 'f' => 'F' | 'g' => 'G' | 'h' => 'H' | 'i' => 'I' | 'j' => 'J'
  | 'k' => 'K' | 'l' => 'L' | 'm' => 'M' | 'n' => 'N' | 'o' => 'O'
  | 'p' => 'P' | 'q' => 'Q' | 'r' => 'R' | 's' => 'S' | 't' => 'T'
  | 'u' => 'U' | 'v' => 'V' | 'w' => 'W' | 'x' => 'X' | 'y' => 'Y'
  | 'z' => 'Z'
  | c => c

/-- The whitespace characters removed by Python `str.strip()`:
tab, newline, vertical tab, form feed, carriage return, space. -/
def isWS (c : Char) : Bool :=
  decide (c.toNat = 32 ∨ c.toNat = 9 ∨ c.toNat = 10 ∨ c.toNat = 11 ∨
          c.toNat = 12 ∨ c.toNat = 13)

/-- ASCII decimal digit. -/
def isDigitC (c : Char) : Bool :=
  decide (48 ≤ c.toNat ∧ c.toNat ≤ 57)

/-- ASCII letter (the "cased" characters relevant to `str.title`). -/
def isAlphaC (c : Char) : Bool :=
  decide ((65 ≤ c.toNat ∧ c.toNat ≤ 90) ∨ (97 ≤ c.toNat ∧ c.toNat ≤ 122))

/-- Numeric value of a digit character. -/
def digitVal (c : Char) : Nat := c.toNat - 48

/-- Value of a digit string read in base 10. -/
def digitsVal (l : List Char) : Nat :=
  l.foldl (fun a c => 10 * a + digitVal c) 0

/-- `str.lower` on a character list. -/
def lowerList (l : List Char) : List Char := l.map lowerChar

/-- `str.strip()` on a character list. -/
def trimList (l : List Char) : List Char :=
  ((l.dropWhile isWS).reverse.dropWhile isWS).reverse

/-- `x.replace(',', '').replace('$', '')`: both patterns are single
characters, so the two replacements delete every comma and dollar sign. -/
def stripSyms (l : List Char) : List Char :=
  l.filter (fun c => decide (c ≠ ',' ∧ c ≠ '$'))

/-- `x.replace('nan', '')` (only `app.py` performs this): delete the
leftmost occurrences of the pattern `nan`, scanning left to right. -/
def removeNan : List Char → List Char
  | 'n' :: 'a' :: 'n' :: rest => removeNan rest
  | c :: rest => c :: removeNan rest
  | [] => []

/-- Does `l` start with `pat`? -/
def startsWithL : List Char → List Char → Bool
  | [], _ => true
  | _ :: _, [] => false
  | p :: ps, c :: cs => p == c && startsWithL ps cs

/-- Python's `pat in l` substring test. -/
def hasSeq (pat : List Char) : List Char → Bool
  | [] => pat.isEmpty
  | c :: rest => startsWithL pat (c :: rest) || hasSeq pat rest

/-! ### Python `float()` on decimal literals

`parseFloat` embeds `float(x)` for the decimal-literal grammar
`[sign] (digits [. digits] | . digits) [(e|E) [sign] digits]`,
returning `none` exactly when `float` raises `ValueError`
(the `inf`/`nan` literals are mapped to `none`, see the header note). -/

/-- Exponent digits (after an optional sign): must be nonempty and
all digits. -/
def expNum (r : List Char) : Option ℚ :=
  if r ≠ [] ∧ (∀ c ∈ r, isDigitC c = true) then some ((10 : ℚ) ^ digitsVal r)
  else none

/-- Exponent body: optional sign, then digits. -/
def expDigits (r : List Char) : Option ℚ :=
  if r.head? = some '+' then expNum r.tail
  else if r.head? = some '-' then (expNum r.tail).map (·⁻¹)
  else expNum r

/-- What may follow the mantissa: nothing, or an exponent marker and
its body.  Returns the scale factor. -/
def expTail (r : List Char) : Option ℚ :=
  if r = [] then some 1
  else if r.head? = some 'e' ∨ r.head? = some 'E' then expDigits r.tail
  else none

/-- Unsigned decimal literal: integer part, optional fraction, optional
exponent; at least one digit must be present in the mantissa. -/
def parseUnsigned (l : List Char) : Option ℚ :=
  let ip := l.takeWhile isDigitC
  let r1 := l.dropWhile isDigitC
  if r1.head? = some '.' then
    let fp := r1.tail.takeWhile isDigitC
    let r3 := r1.tail.dropWhile isDigitC
    if ip = [] ∧ fp = [] then none
    else (expTail r3).map
      (fun e => ((digitsVal ip : ℚ) + (digitsVal fp : ℚ) / 10 ^ fp.length) * e)
  else
    if ip = [] then none
    else (expTail r1).map (fun e => (digitsVal ip : ℚ) * e)

/-- `float(x)` on an already-stripped string. -/
def parseFloat (l : List Char) : Option ℚ :=
  if l.head? = some '+' then parseUnsigned l.tail
  else if l.head? = some '-' then (parseUnsigned l.tail).map Neg.neg
  else parseUnsigned l

/-! ### `datetime.strptime(s, "%d/%m/%Y")`

CPython compiles the format to the anchored regular expression
`(3[01]|[12]\d|0[1-9]|[1-9]) / (1[0-2]|0[1-9]|[1-9]) / (\d\d\d\d)`
and then calls `datetime(year, month, day)`, which additionally checks
`1 <= year` and `day <= days-in-month` (proleptic Gregorian calendar).
Since neither `\d` nor the alternatives can match `/`, the regular
expression matches exactly when the string splits at its slashes into
three all-digit fields of the right widths and ranges; `parseDMY`
implements that characterization directly. -/

/-- A calendar date (no time-of-day component). -/
structure Date where
  year : Nat
  month : Nat
  day : Nat
deriving DecidableEq, Repr

/-- Gregorian leap-year rule used by `datetime`. -/
def isLeap (y : Nat) : Bool :=
  decide (y % 4 = 0 ∧ (y % 100 ≠ 0 ∨ y % 400 = 0))

/-- Number of days of month `m` of year `y` (as validated by the
`datetime` constructor). -/
def daysInMonth (y m : Nat) : Nat :=
  if m = 2 then (if isLeap y then 29 else 28)
  else if m = 4 ∨ m = 6 ∨ m = 9 ∨ m = 11 then 30
  else 31

/-- Day field of `%d`: one or two digits, value 1..31 (the upper bound is
re-checked against the month by the `datetime` constructor). -/
def dayFieldOk (ds : List Char) : Prop :=
  ds ≠ [] ∧ ds.length ≤ 2 ∧ (∀ c ∈ ds, isDigitC c = true) ∧ 1 ≤ digitsVal ds ∧ digitsVal ds ≤ 31

/-- Month field of `%m`: one or two digits, value 1..12. -/
def monthFieldOk (ms : List Char) : Prop :=
  ms ≠ [] ∧ ms.length ≤ 2 ∧ (∀ c ∈ ms, isDigitC c = true) ∧ 1 ≤ digitsVal ms ∧ digitsVal ms ≤ 12

/-- Year field of `%Y`: exactly four digits; `datetime` requires a year
of at least 1. -/
def yearFieldOk (ys : List Char) : Prop :=
  ys.length = 4 ∧ (∀ c ∈ ys, isDigitC c = true) ∧ 1 ≤ digitsVal ys

instance : DecidablePred dayFieldOk := fun ds => by unfold dayFieldOk; infer_instance
instance : DecidablePred monthFieldOk := fun ms => by unfold monthFieldOk; infer_instance
instance : DecidablePred yearFieldOk := fun ys => by unfold yearFieldOk; infer_instance

/-- `datetime.strptime(s, "%d/%m/%Y")`, returning `none` where the
source maps the `ValueError` to `NaT`.  The string is cut at its first
two slashes (when the remainder after a cut is nonempty its head is a
slash, hence the `head?` tests) and the three fields are validated. -/
def parseDMY (l : List Char) : Option Date :=
  let ds := l.takeWhile (· != '/')
  let r1 := l.dropWhile (· != '/')
  if r1.head? = some '/' then
    let ms := r1.tail.takeWhile (· != '/')
    let r2 := r1.tail.dropWhile (· != '/')
    if r2.head? = some '/' then
      let ys := r2.tail
      if dayFieldOk ds ∧ monthFieldOk ms ∧ yearFieldOk ys ∧
          digitsVal ds ≤ daysInMonth (digitsVal ys) (digitsVal ms) then
        some ⟨digitsVal ys, digitsVal ms, digitsVal ds⟩
      else none
    else none
  else none

/-- The specification's date pattern, stated as a decomposition: the
string is exactly `day "/" month "/" year` with a 1-2 digit day, a
1-2 digit month, a 4-digit year, and a valid calendar day.  This is the
spec-side predicate against which `parseDMY` is proved equivalent. -/
def specDMY (l : List Char) : Prop :=
  ∃ ds ms ys : List Char,
    l = ds ++ '/' :: (ms ++ '/' :: ys) ∧
    dayFieldOk ds ∧ monthFieldOk ms ∧ yearFieldOk ys ∧
    digitsVal ds ≤ daysInMonth (digitsVal ys) (digitsVal ms)

/-! ### Cells, text normalization and time features -/

/-- `astype(str)` / `str(...)` on a cell: a pandas `NaN` renders as
the text `"nan"`. -/
def cellToStr : Option String → String
  | none => "nan"
  | some s => s

/-- `clean_date` (identical in `app.py` and `app1.py`):
`datetime.strptime(str(d).strip(), "%d/%m/%Y")`, with the failure case
mapped to `NaT`, i.e. `none`. -/
def clean_date (c : Option String) : Option Date :=
  parseDMY (trimList (cellToStr c).data)

/-- Python `str.title()` on ASCII text: a letter is upper-cased when the
preceding character is not a letter, lower-cased otherwise.  `prev` is
whether the previous character was cased. -/
def titleAux : Bool → List Char → List Char
  | _, [] => []
  | prev, c :: rest =>
    if isAlphaC c then
      (if prev then lowerChar c else upperChar c) :: titleAux true rest
    else c :: titleAux false rest

/-- `str.title()` on a string. -/
def titleStr (s : String) : String := ⟨titleAux false s.data⟩

/-- `str.strip()` on a string. -/
def trimStr (s : String) : String := ⟨trimList s.data⟩

/-- Exact-value synonym replacement, as `Series.replace` with a
dictionary: a value that is a key of the table maps to the associated
value, everything else is unchanged. -/
def applyMap (m : List (String × String)) (s : String) : String :=
  match m.find? (fun p => p.1 == s) with
  | some p => p.2
  | none => s

/-- The static city canonicalization table (identical in all variants). -/
def cityMap : List (String × String) :=
  [("Bengaluru", "Bangalore"), ("New Delhi", "Delhi"),
   ("Gurugram", "Gurgaon"), ("Hydrabad", "Hyderabad")]

/-- Zero-padding to two digits (pandas `Period` month rendering). -/
def pad2 (n : Nat) : String :=
  if n < 10 then "0" ++ toString n else toString n

/-- Zero-padding to four digits (pandas `Period` year rendering). -/
def pad4 (n : Nat) : String :=
  if n < 10 then "000" ++ toString n
  else if n < 100 then "00" ++ toString n
  else if n < 1000 then "0" ++ toString n
  else toString n

/-- `str(date.to_period('M'))`: the `"YYYY-MM"` period string. -/
def monthStr (d : Date) : String := pad4 d.year ++ "-" ++ pad2 d.month

/-! ### The record set and the two pipeline variants -/

/-- One cleaned funding record (`FundingRecord` of the specification):
one row of the final dataframe, with the derived `Year`/`Month`
features. -/
structure FundingRecord where
  date : Date
  year : Nat
  month : String
  startupName : String
  sector : String
  city : String
  investmentType : String
  amount : ℚ
deriving DecidableEq, Repr

/-- One raw row: the cells of the source table in column order
(column 13 holds the date, 14 the startup name, 15 the sector, 17 the
city, 19 the investment type, 20 the amount).  Missing trailing cells
read as `NaN`, hence the `getD _ none` accesses below. -/
abbrev Row := List (Option String)

/-- The raw table handed to `load_data` after `read_csv`: pandas fixes
the column count from the header row and pads short rows with `NaN`. -/
structure RawTable where
  ncols : Nat
  rows : List Row

/-- The configuration failure of `load_data`: the fixed column plan
`[13, 14, 15, 17, 19, 20]` points past the available columns and
`iloc` raises `IndexError`. -/
inductive ConfigError where
  | columnMismatch
deriving DecidableEq, Repr

/-- The row-wise cleaning stages shared by both variants, in source
order: clean the amount and drop missing amounts (`apply` + `dropna`),
keep positive amounts, clean the date and drop missing dates, build the
record with its derived features and normalized text fields, and
finally drop outlier amounts (`df[df.Amount < 1000]`). -/
def pipeline (ca : Option String → Option ℚ)
    (mk : Row → ℚ → Date → FundingRecord) (rows : List Row) :
    List FundingRecord :=
  ((((rows.filterMap fun r => (ca (r.getD 20 none)).map fun a => (r, a))
    |>.filter fun x => decide (0 < x.2))
    |>.filterMap fun x => (clean_date (x.1.getD 13 none)).map fun d => (x.1, x.2, d))
    |>.map fun x => mk x.1 x.2.1 x.2.2)
    |>.filter fun fr => decide (fr.amount < 1000)

namespace App

/-- `clean_amount` of `app.py`: strip commas and dollar signs, delete
`'nan'` substrings, strip whitespace; reject the strings whose
lower-casing contains a unit marker, equals `"n/a"`, or is empty;
otherwise `float(x) / 1_000_000`, with `ValueError` mapped to `NaN`. -/
def clean_amount : Option String → Option ℚ
  | none => none
  | some s =>
    let x := trimList (removeNan (stripSyms s.data))
    if hasSeq "lac".data (lowerList x) ∨ hasSeq "lakh".data (lowerList x) ∨
        hasSeq "cr".data (lowerList x) ∨ hasSeq "unknown".data (lowerList x) then none
    else if lowerList x = "n/a".data ∨ x = [] then none
    else (parseFloat x).map (· / 1000000)

/-- The categorical-text normalization of `app.py`:
`astype(str).str.strip().str.title()`, replace the missing-data
renderings `Nan`, `N/A`, `Nan/Nan` by the sentinel `Other`, and
additionally replace the empty string by `Other`. -/
def cleanText (c : Option String) : String :=
  let t := titleStr (trimStr (cellToStr c))
  if t = "Nan" ∨ t = "N/A" ∨ t = "Nan/Nan" then "Other"
  else if t = "" then "Other"
  else t

/-- The investment-type synonym table of `app.py`. -/
def investMap : List (String × String) :=
  [("Seed/ Angel Funding", "Seed/Angel Funding"),
   ("Private Equity", "Private Equity/Venture Capital")]

/-- Build the cleaned record of one surviving row of `app.py`. -/
def mkRecord (r : Row) (a : ℚ) (d : Date) : FundingRecord where
  date := d
  year := d.year
  month := monthStr d
  startupName := cleanText (r.getD 14 none)
  sector := cleanText (r.getD 15 none)
  city := applyMap cityMap (cleanText (r.getD 17 none))
  investmentType := applyMap investMap (cleanText (r.getD 19 none))
  amount := a

/-- The full row-cleaning of `load_data` in `app.py`. -/
def normalize (rows : List Row) : List FundingRecord :=
  pipeline clean_amount mkRecord rows

/-- `load_data` of `app.py` after `read_csv`: column selection by the
fixed index plan (maximal index 20), reporting `IndexError` as a
configuration error, then the cleaning pipeline. -/
def loadData (t : RawTable) : Except ConfigError (List FundingRecord) :=
  if 20 < t.ncols then .ok (normalize t.rows) else .error .columnMismatch

end App

namespace App1

/-- `clean_amount` of `app1.py`/`app2.py`: strip commas and dollar
signs, strip whitespace, lower-case; reject the strings containing any
of the five unit markers; otherwise `float(x) / 1_000_000` with
failures mapped to `NaN`. -/
def clean_amount : Option String → Option ℚ
  | none => none
  | some s =>
    let x := lowerList (trimList (stripSyms s.data))
    if hasSeq "lac".data x ∨ hasSeq "lakh".data x ∨ hasSeq "cr".data x ∨
        hasSeq "unknown".data x ∨ hasSeq "n/a".data x then none
    else (parseFloat x).map (· / 1000000)

/-- The categorical-text normalization of `app1.py`/`app2.py`:
`astype(str).str.strip().str.title()` and the sentinel replacements
`Nan ↦ Other`, `N/A ↦ Other` (no replacement of the empty string). -/
def cleanText (c : Option String) : String :=
  let t := titleStr (trimStr (cellToStr c))
  if t = "Nan" ∨ t = "N/A" then "Other" else t

/-- The investment-type synonym table of `app1.py`/`app2.py`. -/
def investMap : List (String × String) :=
  [("Seed/ Angel Funding", "Seed/Angel Funding")]

/-- Build the cleaned record of one surviving row of `app1.py`. -/
def mkRecord (r : Row) (a : ℚ) (d : Date) : FundingRecord where
  date := d
  year := d.year
  month := monthStr d
  startupName := cleanText (r.getD 14 none)
  sector := cleanText (r.getD 15 none)
  city := applyMap cityMap (cleanText (r.getD 17 none))
  investmentType := applyMap investMap (cleanText (r.getD 19 none))
  amount := a

/-- The full row-cleaning of `load_data` in `app1.py`. -/
def normalize (rows : List Row) : List FundingRecord :=
  pipeline clean_amount mkRecord rows

/-- `load_data` of `app1.py` after `read_csv`. -/
def loadData (t : RawTable) : Except ConfigError (List FundingRecord) :=
  if 20 < t.ncols then .ok (normalize t.rows) else .error .columnMismatch

end App1

/-! ### Auxiliary predicates and concrete inputs used by the claims -/

/-- The characters that may occur in a string accepted by `parseFloat`. -/
def isFloatChar (c : Char) : Prop :=
  isDigitC c = true ∨ c = '.' ∨ c = '+' ∨ c = '-' ∨ c = 'e' ∨ c = 'E'

/-- A raw row of 21 cells with the six meaningful columns filled in:
cell 13 the date, 14 the startup name, 15 the sector, 17 the city,
19 the investment type, 20 the amount (as selected by
`iloc[:, [13, 14, 15, 17, 19, 20]]`). -/
def mkRow (d n s c i a : Option String) : Row :=
  List.replicate 13 none ++ [d, n, s, none, c, none, i, a]

/-- Row A of the end-to-end scenario: a fully valid row. -/
def rowA : Row :=
  mkRow (some "01/01/2020") (some "flipkart") (some "ecommerce")
    (some "Bengaluru") (some "Seed") (some "$2,000,000")

/-- Row B of the end-to-end scenario: rejected unit `"5 cr"`. -/
def rowB : Row :=
  mkRow (some "02/01/2020") (some "grofers") (some "retail")
    (some "Mumbai") (some "Seed") (some "5 cr")

/-- Row C of the end-to-end scenario: invalid date `"13-13-2020"`. -/
def rowC : Row :=
  mkRow (some "13-13-2020") (some "oyo") (some "travel")
    (some "Delhi") (some "Seed") (some "1000000")

/-- The three-row raw table of the end-to-end scenario. -/
def tableSix : RawTable := ⟨21, [rowA, rowB, rowC]⟩

/-- The record produced from `rowA` (identical in both variants). -/
def recA : FundingRecord :=
  { date := ⟨2020, 1, 1⟩, year := 2020, month := "2020-01",
    startupName := "Flipkart", sector := "Ecommerce", city := "Bangalore",
    investmentType := "Seed", amount := 2 }

/-- A valid row whose parsed amount is exactly 999.99 million. -/
def row999 : Row :=
  mkRow (some "01/01/2020") (some "flipkart") (some "ecommerce")
    (some "Bengaluru") (some "Seed") (some "999990000")

/-- A valid row whose parsed amount is exactly 1000 million. -/
def row1000 : Row :=
  mkRow (some "01/01/2020") (some "flipkart") (some "ecommerce")
    (some "Bengaluru") (some "Seed") (some "1000000000")

/-- A valid row whose parsed amount is zero. -/
def row0 : Row :=
  mkRow (some "01/01/2020") (some "flipkart") (some "ecommerce")
    (some "Bengaluru") (some "Seed") (some "0")

/-- A row that is valid except that its city cell is the literal empty
string. -/
def rowBlankCity : Row :=
  mkRow (some "01/01/2020") (some "flipkart") (some "ecommerce")
    (some "") (some "Seed") (some "2000000")

/-- A wide-enough table (21 columns) none of whose rows carries a
date-formatted value in the date column. -/
def tableNoDate : RawTable := ⟨21, [rowC]⟩

/-- A table with too few columns for the fixed selection plan. -/
def tableNarrow : RawTable := ⟨6, [rowA]⟩

/-! ### Character-level lemmas -/

theorem isWS_lowerChar (c : Char) : isWS (lowerChar c) = isWS c := by
  unfold lowerChar
  split <;> first | rfl | (subst_vars; decide)

theorem lowerChar_eq_self_of_digit (c : Char) (h : isDigitC c = true) :
    lowerChar c = c := by
  unfold lowerChar
  split <;> first | rfl | (subst_vars; simp [isDigitC] at h)

/-! ### Substring (`hasSeq`) lemmas -/

theorem startsWithL_iff (pat l : List Char) :
    startsWithL pat l = true ↔ ∃ t, l = pat ++ t := by
  induction pat generalizing l with
  | nil => simp [startsWithL]
  | cons p ps ih =>
    cases l with
    | nil => simp [startsWithL]
    | cons c cs =>
      simp only [startsWithL, Bool.and_eq_true, beq_iff_eq, ih, List.cons_append,
        List.cons.injEq]
      constructor
      · rintro ⟨rfl, t, rfl⟩; exact ⟨t, rfl, rfl⟩
      · rintro ⟨t, rfl, rfl⟩; exact ⟨rfl, t, rfl⟩

theorem hasSeq_iff (pat l : List Char) :
    hasSeq pat l = true ↔ ∃ a b, l = a ++ pat ++ b := by
  induction l with
  | nil =>
    simp only [hasSeq, List.isEmpty_iff]
    constructor
    · rintro rfl; exact ⟨[], [], rfl⟩
    · rintro ⟨a, b, h⟩
      rcases List.append_eq_nil.mp ((List.append_eq_nil).mp h.symm).1 with ⟨-, h2⟩
      exact h2
  | cons c cs ih =>
    simp only [hasSeq, Bool.or_eq_true, startsWithL_iff, ih]
    constructor
    · rintro (⟨t, ht⟩ | ⟨a, b, rfl⟩)
      · exact ⟨[], t, by simpa using ht⟩
      · exact ⟨c :: a, b, rfl⟩
    · rintro ⟨a, b, hab⟩
      cases a with
      | nil => exact Or.inl ⟨b, by simpa using hab⟩
      | cons a0 as =>
        simp only [List.cons_append, List.cons.injEq] at hab
        exact Or.inr ⟨as, b, hab.2⟩

theorem mem_of_hasSeq {pat l : List Char} (h : hasSeq pat l = true) {c : Char}
    (hc : c ∈ pat) : c ∈ l := by
  rcases (hasSeq_iff pat l).mp h with ⟨a, b, rfl⟩
  simp [hc]

/-! ### Trim and membership lemmas -/

theorem mem_dropWhile_of_mem {p : Char → Bool} {c : Char} {l : List Char}
    (hm : c ∈ l) (hc : p c = false) : c ∈ l.dropWhile p := by
  induction l with
  | nil => cases hm
  | cons x xs ih =>
    by_cases hx : p x = true
    · rw [List.dropWhile_cons_of_pos hx]
      rcases List.mem_cons.mp hm with rfl | hm2
      · rw [hx] at hc; cases hc
      · exact ih hm2
    · rw [List.dropWhile_cons_of_neg hx]
      exact hm

theorem mem_trimList {c : Char} {l : List Char} (hm : c ∈ l)
    (hc : isWS c = false) : c ∈ trimList l := by
  unfold trimList
  rw [List.mem_reverse]
  exact mem_dropWhile_of_mem (by rw [List.mem_reverse]; exact mem_dropWhile_of_mem hm hc) hc

theorem mem_removeNan {c : Char} (h1 : c ≠ 'n') (h2 : c ≠ 'a') :
    ∀ l : List Char, c ∈ l → c ∈ removeNan l := by
  intro l
  induction l using removeNan.induct with
  | case1 rest ih =>
    intro hm
    rw [removeNan.eq_1]
    rcases List.mem_cons.mp hm with rfl | hm2
    · exact absurd rfl h1
    rcases List.mem_cons.mp hm2 with rfl | hm3
    · exact absurd rfl h2
    rcases List.mem_cons.mp hm3 with rfl | hm4
    · exact absurd rfl h1
    exact ih hm4
  | case2 x rest hside ih =>
    intro hm
    rw [removeNan.eq_2 x rest hside]
    rcases List.mem_cons.mp hm with rfl | hm2
    · exact List.mem_cons_self _ _
    · exact List.mem_cons_of_mem _ (ih hm2)
  | case3 => intro hm; cases hm

theorem dropWhile_decomp (p : Char → Bool) (a m b : List Char) (hm : m ≠ [])
    (hmp : ∀ c ∈ m, p c = false) :
    ∃ a2, (a ++ m ++ b).dropWhile p = a2 ++ m ++ b := by
  induction a with
  | nil =>
    cases m with
    | nil => exact absurd rfl hm
    | cons c cs =>
      refine ⟨[], ?_⟩
      simp only [List.nil_append, List.cons_append]
      rw [List.dropWhile_cons_of_neg (by simp [hmp c (by simp)])]
  | cons x xs ih =>
    rcases ih with ⟨a2, ha2⟩
    have hshape : (x :: xs) ++ m ++ b = x :: (xs ++ m ++ b) := by
      simp [List.append_assoc]
    by_cases hx : p x = true
    · refine ⟨a2, ?_⟩
      rw [hshape, List.dropWhile_cons_of_pos hx]
      exact ha2
    · exact ⟨x :: xs, by rw [hshape, List.dropWhile_cons_of_neg hx]⟩

/-- The trimmed list decomposes around any nonempty non-whitespace
substring occurrence of the original list. -/
theorem trimList_decomp (a m b : List Char) (hm : m ≠ [])
    (hmp : ∀ c ∈ m, isWS c = false) :
    ∃ a2 b2, trimList (a ++ m ++ b) = a2 ++ m ++ b2 := by
  obtain ⟨a2, ha2⟩ := dropWhile_decomp isWS a m b hm hmp
  obtain ⟨b2, hb2⟩ := dropWhile_decomp isWS b.reverse m.reverse a2.reverse
    (by simpa using hm) (by intro c hc; exact hmp c (List.mem_reverse.mp hc))
  refine ⟨a2, b2.reverse, ?_⟩
  unfold trimList
  rw [ha2]
  have hrev : (a2 ++ m ++ b).reverse = b.reverse ++ m.reverse ++ a2.reverse := by
    simp [List.reverse_append, List.append_assoc]
  rw [hrev, hb2]
  simp [List.reverse_append, List.append_assoc]

theorem hasSeq_trimList {pat l : List Char} (h : hasSeq pat l = true)
    (hne : pat ≠ []) (hws : ∀ c ∈ pat, isWS c = false) :
    hasSeq pat (trimList l) = true := by
  rcases (hasSeq_iff pat l).mp h with ⟨a, b, rfl⟩
  obtain ⟨a2, b2, hab⟩ := trimList_decomp a pat b hne hws
  rw [hab]
  exact (hasSeq_iff pat _).mpr ⟨a2, b2, rfl⟩

theorem lowerList_trimList (l : List Char) :
    lowerList (trimList l) = trimList (lowerList l) := by
  have hws : (isWS ∘ lowerChar) = isWS := funext fun c => isWS_lowerChar c
  unfold trimList lowerList
  rw [List.dropWhile_map, hws, ← List.map_reverse, List.dropWhile_map, hws,
    List.map_reverse]

/-! ### takeWhile / dropWhile around an explicit separator -/

theorem takeWhile_middle (p : Char → Bool) (a b : List Char) (c : Char)
    (ha : ∀ x ∈ a, p x = true) (hc : p c = false) :
    (a ++ c :: b).takeWhile p = a ∧ (a ++ c :: b).dropWhile p = c :: b := by
  induction a with
  | nil =>
    constructor
    · simp [List.takeWhile_cons, hc]
    · simp [List.dropWhile_cons, hc]
  | cons x xs ih =>
    have hx := ha x (by simp)
    have ih2 := ih fun y hy => ha y (by simp [hy])
    constructor
    · simp only [List.cons_append, List.takeWhile_cons, hx, if_true, ih2.1]
    · simp only [List.cons_append, List.dropWhile_cons, hx, if_true, ih2.2]

/-! ### Soundness of `parseFloat`: accepted strings use only the float
alphabet -/

theorem isSome_of_map_isSome {α β : Type} {f : α → β} {o : Option α}
    (h : (o.map f).isSome = true) : o.isSome = true := by
  cases o <;> simp_all

theorem eq_cons_tail_of_head? {α : Type} {l : List α} {x : α}
    (h : l.head? = some x) : l = x :: l.tail := by
  cases l <;> simp_all

theorem expNum_sound {r : List Char} (h : (expNum r).isSome = true) :
    ∀ c ∈ r, isDigitC c = true := by
  unfold expNum at h
  split_ifs at h with hc
  · exact hc.2
  · simp at h

theorem expDigits_sound {r : List Char} (h : (expDigits r).isSome = true) :
    ∀ c ∈ r, isDigitC c = true ∨ c = '+' ∨ c = '-' := by
  unfold expDigits at h
  split_ifs at h with h1 h2
  · have hr := eq_cons_tail_of_head? h1
    intro c hc
    rw [hr] at hc
    rcases List.mem_cons.mp hc with rfl | hc2
    · exact Or.inr (Or.inl rfl)
    · exact Or.inl (expNum_sound h c hc2)
  · have hr := eq_cons_tail_of_head? h2
    have h3 := isSome_of_map_isSome h
    intro c hc
    rw [hr] at hc
    rcases List.mem_cons.mp hc with rfl | hc2
    · exact Or.inr (Or.inr rfl)
    · exact Or.inl (expNum_sound h3 c hc2)
  · intro c hc
    exact Or.inl (expNum_sound h c hc)

theorem expTail_sound {r : List Char} (h : (expTail r).isSome = true) :
    ∀ c ∈ r, isDigitC c = true ∨ c = '+' ∨ c = '-' ∨ c = 'e' ∨ c = 'E' := by
  unfold expTail at h
  split_ifs at h with h1 h2
  · subst h1; intro c hc; cases hc
  · intro c hc
    rcases h2 with he | he <;>
    · have hr := eq_cons_tail_of_head? he
      rw [hr] at hc
      rcases List.mem_cons.mp hc with rfl | hc2
      · tauto
      · rcases expDigits_sound h c hc2 with h3 | h3 | h3 <;> tauto
  · simp at h

theorem parseUnsigned_sound {l : List Char} (h : (parseUnsigned l).isSome = true) :
    ∀ c ∈ l, isFloatChar c := by
  intro c hc
  rw [← List.takeWhile_append_dropWhile isDigitC l] at hc
  rcases List.mem_append.mp hc with hip | hr1
  · exact Or.inl (List.mem_takeWhile_imp hip)
  · simp only [parseUnsigned] at h
    split_ifs at h with h1 h2 h3
    · simp at h
    · -- fraction branch: the rest after the digits starts with a dot
      have hr := eq_cons_tail_of_head? h1
      have h4 := isSome_of_map_isSome h
      rw [hr] at hr1
      rcases List.mem_cons.mp hr1 with rfl | hct
      · exact Or.inr (Or.inl rfl)
      · rw [← List.takeWhile_append_dropWhile isDigitC
          (l.dropWhile isDigitC).tail] at hct
        rcases List.mem_append.mp hct with hfp | hr3
        · exact Or.inl (List.mem_takeWhile_imp hfp)
        · rcases expTail_sound h4 c hr3 with h5 | h5 | h5 | h5 | h5 <;>
            simp [isFloatChar, h5]
    · simp at h
    · -- no-fraction branch
      have h4 := isSome_of_map_isSome h
      rcases expTail_sound h4 c hr1 with h5 | h5 | h5 | h5 | h5 <;>
        simp [isFloatChar, h5]

theorem parseFloat_sound {l : List Char} (h : (parseFloat l).isSome = true) :
    ∀ c ∈ l, isFloatChar c := by
  unfold parseFloat at h
  split_ifs at h with h1 h2
  · have hr := eq_cons_tail_of_head? h1
    intro c hc
    rw [hr] at hc
    rcases List.mem_cons.mp hc with rfl | hc2
    · simp [isFloatChar]
    · exact parseUnsigned_sound h c hc2
  · have hr := eq_cons_tail_of_head? h2
    have h3 := isSome_of_map_isSome h
    intro c hc
    rw [hr] at hc
    rcases List.mem_cons.mp hc with rfl | hc2
    · simp [isFloatChar]
    · exact parseUnsigned_sound h3 c hc2
  · exact parseUnsigned_sound h

theorem parseFloat_none_of_bad {l : List Char} {ch : Char} (hm : ch ∈ l)
    (hbad : ¬ isFloatChar ch) : parseFloat l = none := by
  cases h : parseFloat l with
  | none => rfl
  | some q => exact absurd (parseFloat_sound (by rw [h]; rfl) ch hm) hbad

/-! ### `parseDMY` accepts exactly the specified day/month/year shape -/

theorem ne_slash_of_digit {c : Char} (h : isDigitC c = true) :
    (c != '/') = true := by
  rw [bne_iff_ne]
  intro hc
  subst hc
  exact absurd h (by decide)

theorem parseDMY_iff_specDMY (l : List Char) :
    (parseDMY l).isSome = true ↔ specDMY l := by
  constructor
  · intro h
    simp only [parseDMY] at h
    have e1 := List.takeWhile_append_dropWhile (· != '/') l
    set ds := l.takeWhile (· != '/') with hds
    set r1 := l.dropWhile (· != '/') with hr1d
    have e2 := List.takeWhile_append_dropWhile (· != '/') r1.tail
    set ms := r1.tail.takeWhile (· != '/') with hms
    set r2 := r1.tail.dropWhile (· != '/') with hr2d
    split_ifs at h with h1 h2 h3
    · have hr1 := eq_cons_tail_of_head? h1
      have hr2 := eq_cons_tail_of_head? h2
      refine ⟨ds, ms, r2.tail, ?_, h3.1, h3.2.1, h3.2.2.1, h3.2.2.2⟩
      rw [← e1, hr1, ← e2, hr2]
      simp
    · simp at h
    · simp at h
    · simp at h
  · rintro ⟨ds, ms, ys, rfl, hd, hmn, hy, hcal⟩
    have pds : ∀ x ∈ ds, (x != '/') = true :=
      fun x hx => ne_slash_of_digit (hd.2.2.1 x hx)
    have pms : ∀ x ∈ ms, (x != '/') = true :=
      fun x hx => ne_slash_of_digit (hmn.2.2.1 x hx)
    have t1 := takeWhile_middle (· != '/') ds (ms ++ '/' :: ys) '/' pds (by simp)
    have t2 := takeWhile_middle (· != '/') ms ys '/' pms (by simp)
    simp only [parseDMY, t1.1, t1.2, List.head?_cons, List.tail_cons, t2.1, t2.2,
      Option.some.injEq, eq_self_iff_true, if_true]
    rw [if_pos ⟨hd, hmn, hy, hcal⟩]
    rfl

/-! ### Structure of the pipeline -/

/-- Every record of the pipeline output stems from some raw row whose
amount cleaned to a positive value, whose date parsed, and whose final
amount lies below the ceiling. -/
theorem mem_pipeline {ca : Option String → Option ℚ}
    {mk : Row → ℚ → Date → FundingRecord} {rows : List Row} {r : FundingRecord}
    (h : r ∈ pipeline ca mk rows) :
    ∃ row a d, ca (row.getD 20 none) = some a ∧ 0 < a ∧
      clean_date (row.getD 13 none) = some d ∧ r = mk row a d ∧
      r.amount < 1000 := by
  unfold pipeline at h
  rcases List.mem_filter.mp h with ⟨h4, hceil⟩
  rcases List.mem_map.mp h4 with ⟨x, hx3, rfl⟩
  rcases List.mem_filterMap.mp hx3 with ⟨y, hy2, hyd⟩
  rcases List.mem_filter.mp hy2 with ⟨hy1, hpos⟩
  rcases List.mem_filterMap.mp hy1 with ⟨row, hrow, hra⟩
  cases hca : ca (row.getD 20 none) with
  | none => rw [hca] at hra; cases hra
  | some a =>
    rw [hca, Option.map_some'] at hra
    injection hra with hy
    subst hy
    cases hcd : clean_date (row.getD 13 none) with
    | none => simp only [hcd, Option.map_none'] at hyd; cases hyd
    | some d =>
      simp only [hcd, Option.map_some'] at hyd
      injection hyd with hx
      subst hx
      exact ⟨row, a, d, hca, of_decide_eq_true hpos, hcd, rfl,
        of_decide_eq_true hceil⟩

/-- A row whose amount does not clean to a value, or whose date does not
parse, contributes nothing: the pipeline output with that row removed is
unchanged. -/
theorem pipeline_drop_middle (ca : Option String → Option ℚ)
    (mk : Row → ℚ → Date → FundingRecord) (pre post : List Row) (r : Row)
    (hdrop : ca (r.getD 20 none) = none ∨
      ∀ a, ca (r.getD 20 none) = some a → clean_date (r.getD 13 none) = none) :
    pipeline ca mk (pre ++ r :: post) = pipeline ca mk (pre ++ post) := by
  unfold pipeline
  rcases hdrop with hno | hdate
  · simp only [List.filterMap_append, List.filterMap_cons, hno,
      Option.map_none']
  · cases hca : ca (r.getD 20 none) with
    | none =>
      simp only [List.filterMap_append, List.filterMap_cons, hca,
        Option.map_none']
    | some a =>
      have hcd := hdate a hca
      by_cases h0 : (0 : ℚ) < a
      · simp only [List.filterMap_append, List.filterMap_cons, hca, hcd,
          Option.map_some', Option.map_none', List.filter_append,
          List.filter_cons, decide_eq_true h0, if_true]
      · simp only [List.filterMap_append, List.filterMap_cons, hca,
          Option.map_some', List.filter_append, List.filter_cons,
          decide_eq_false h0, Bool.false_eq_true, if_false]

/-! ### Identity lemmas on digit strings -/

theorem dropWhile_eq_self_of_false {p : Char → Bool} {l : List Char}
    (h : ∀ c ∈ l, p c = false) : l.dropWhile p = l := by
  cases l with
  | nil => rfl
  | cons x xs => exact List.dropWhile_cons_of_neg (by simp [h x (by simp)])

theorem trimList_eq_self {l : List Char} (h : ∀ c ∈ l, isWS c = false) :
    trimList l = l := by
  unfold trimList
  rw [dropWhile_eq_self_of_false h,
    dropWhile_eq_self_of_false (fun c hc => h c (List.mem_reverse.mp hc)),
    List.reverse_reverse]

theorem removeNan_eq_self {l : List Char} (h : ∀ c ∈ l, c ≠ 'n') :
    removeNan l = l := by
  induction l using removeNan.induct with
  | case1 rest ih => exact absurd rfl (h 'n' (by simp))
  | case2 x rest hside ih =>
    rw [removeNan.eq_2 x rest hside,
      ih fun c hc => h c (List.mem_cons_of_mem _ hc)]
  | case3 => rfl

theorem lowerList_eq_self_of_digits {l : List Char}
    (h : ∀ c ∈ l, isDigitC c = true) : lowerList l = l := by
  unfold lowerList
  rw [List.map_congr_left
    (fun c hc => lowerChar_eq_self_of_digit c (h c hc) : ∀ c ∈ l, lowerChar c = id c)]
  exact List.map_id l

theorem stripSyms_eq_self_of_digits {l : List Char}
    (h : ∀ c ∈ l, isDigitC c = true) : stripSyms l = l := by
  refine List.filter_eq_self.mpr fun c hc => decide_eq_true ⟨?_, ?_⟩ <;>
    intro he <;> subst he <;> exact absurd (h _ hc) (by decide)

theorem stripSyms_idem (l : List Char) : stripSyms (stripSyms l) = stripSyms l := by
  unfold stripSyms
  exact List.filter_eq_self.mpr fun c hc => (List.mem_filter.mp hc).2

theorem isWS_false_of_digit {c : Char} (h : isDigitC c = true) :
    isWS c = false := by
  simp only [isDigitC, decide_eq_true_eq] at h
  simp only [isWS, decide_eq_false_iff_not]
  omega

theorem hasSeq_false_of_digits {pat l : List Char} {c0 : Char} (hc0 : c0 ∈ pat)
    (hbad : isDigitC c0 = false) (h : ∀ c ∈ l, isDigitC c = true) :
    hasSeq pat l = false := by
  cases hs : hasSeq pat l with
  | false => rfl
  | true => exact absurd (h c0 (mem_of_hasSeq hs hc0)) (by simp [hbad])

theorem parseFloat_digits {l : List Char} (hne : l ≠ [])
    (h : ∀ c ∈ l, isDigitC c = true) : parseFloat l = some (digitsVal l) := by
  have htake : l.takeWhile isDigitC = l := List.takeWhile_eq_self_iff.mpr h
  have hdrop : l.dropWhile isDigitC = [] := List.dropWhile_eq_nil_iff.mpr h
  obtain ⟨c0, t, rfl⟩ : ∃ c0 t, l = c0 :: t := by
    cases l with
    | nil => exact absurd rfl hne
    | cons a b => exact ⟨a, b, rfl⟩
  have hc0 := h c0 (by simp)
  have hplus : c0 ≠ '+' := fun he => by subst he; exact absurd hc0 (by decide)
  have hminus : c0 ≠ '-' := fun he => by subst he; exact absurd hc0 (by decide)
  simp only [parseFloat, List.head?_cons]
  rw [if_neg (by simp [hplus]), if_neg (by simp [hminus])]
  simp only [parseUnsigned, htake, hdrop]
  rw [if_neg (by simp)]
  rw [if_neg hne]
  simp [expTail]

/-! ### Nonemptiness of normalized text -/

theorem cleanText_ne_empty_app (c : Option String) : App.cleanText c ≠ "" := by
  simp only [App.cleanText]
  split_ifs with h1 h2
  · simp
  · simp
  · exact h2

theorem applyMap_ne_empty {m : List (String × String)}
    (hm : ∀ p ∈ m, p.2 ≠ "") {s : String} (hs : s ≠ "") :
    applyMap m s ≠ "" := by
  unfold applyMap
  cases hf : m.find? (fun p => p.1 == s) with
  | none => exact hs
  | some p => exact hm p (List.mem_of_find?_eq_some hf)

/-! ### `app.py` amounts: a marker letter always forces `NaN`

Each rejected-unit marker contains a character that lower-cases to one
of `l`, `c`, `u`, `/`.  Such a character is not deleted by the `nan`
replacement, is not stripped as whitespace, and cannot occur in a
string accepted by `float`, so the amount is discarded on every branch
of `clean_amount`. -/

theorem app_clean_amount_none_of_bad {s : String} {ch b : Char}
    (hm : ch ∈ stripSyms s.data) (hlow : lowerChar ch = b)
    (hb : b = 'l' ∨ b = 'c' ∨ b = 'u' ∨ b = '/') :
    App.clean_amount (some s) = none := by
  have hn : ch ≠ 'n' := by
    intro he
    subst he
    rw [show lowerChar 'n' = 'n' from rfl] at hlow
    rcases hb with rfl | rfl | rfl | rfl <;> exact absurd hlow (by decide)
  have ha : ch ≠ 'a' := by
    intro he
    subst he
    rw [show lowerChar 'a' = 'a' from rfl] at hlow
    rcases hb with rfl | rfl | rfl | rfl <;> exact absurd hlow (by decide)
  have hws : isWS ch = false := by
    have hcomm := isWS_lowerChar ch
    rw [hlow] at hcomm
    rw [← hcomm]
    rcases hb with rfl | rfl | rfl | rfl <;> decide
  have hbad : ¬ isFloatChar ch := by
    intro hf
    rcases hf with hd | he | he | he | he | he
    · rw [lowerChar_eq_self_of_digit ch hd] at hlow
      subst hlow
      rcases hb with rfl | rfl | rfl | rfl <;> exact absurd hd (by decide)
    all_goals
      subst he
      rcases hb with rfl | rfl | rfl | rfl <;> exact absurd hlow (by decide)
  have hmem : ch ∈ trimList (removeNan (stripSyms s.data)) :=
    mem_trimList (mem_removeNan hn ha _ hm) hws
  have hpf := parseFloat_none_of_bad hmem hbad
  simp only [App.clean_amount]
  split_ifs with h1 h2
  · rfl
  · rfl
  · rw [hpf]; rfl

/-- `app1.py` amounts: a marker occurrence in the stripped lower-cased
cell survives the trim, so the substring test fires and the amount is
discarded. -/
theorem app1_clean_amount_none_of_marker {s : String} {pat : List Char}
    (hp : hasSeq pat (lowerList (stripSyms s.data)) = true)
    (hne : pat ≠ []) (hws : ∀ c ∈ pat, isWS c = false)
    (hin : pat = "lac".data ∨ pat = "lakh".data ∨ pat = "cr".data ∨
      pat = "unknown".data ∨ pat = "n/a".data) :
    App1.clean_amount (some s) = none := by
  have ht : hasSeq pat (lowerList (trimList (stripSyms s.data))) = true := by
    rw [lowerList_trimList]
    exact hasSeq_trimList hp hne hws
  simp only [App1.clean_amount]
  rcases hin with rfl | rfl | rfl | rfl | rfl
  · rw [if_pos (Or.inl ht)]
  · rw [if_pos (Or.inr (Or.inl ht))]
  · rw [if_pos (Or.inr (Or.inr (Or.inl ht)))]
  · rw [if_pos (Or.inr (Or.inr (Or.inr (Or.inl ht))))]
  · rw [if_pos (Or.inr (Or.inr (Or.inr (Or.inr ht))))]

/-! ## The claims -/

/-- Claim C1: for every raw row whose amount cell, after stripping
commas and currency symbols and lower-casing, contains any of the
markers `lakh`, `lac`, `cr`, `unknown`, `n/a`, the cleaned amount is
missing (`NaN`) in both variants and the row contributes no record to
the normalized output. -/
theorem c1_rejected_unit_markers (s : String)
    (h : hasSeq "lakh".data (lowerList (stripSyms s.data)) = true ∨
         hasSeq "lac".data (lowerList (stripSyms s.data)) = true ∨
         hasSeq "cr".data (lowerList (stripSyms s.data)) = true ∨
         hasSeq "unknown".data (lowerList (stripSyms s.data)) = true ∨
         hasSeq "n/a".data (lowerList (stripSyms s.data)) = true) :
    App.clean_amount (some s) = none ∧ App1.clean_amount (some s) = none ∧
    ∀ (pre post : List Row) (r : Row), r.getD 20 none = some s →
      App.normalize (pre ++ r :: post) = App.normalize (pre ++ post) ∧
      App1.normalize (pre ++ r :: post) = App1.normalize (pre ++ post) := by
  have happ : App.clean_amount (some s) = none := by
    rcases h with h | h | h | h | h
    · rcases List.mem_map.mp
        (mem_of_hasSeq h (show 'l' ∈ "lakh".data by decide) :
          'l' ∈ List.map lowerChar (stripSyms s.data)) with ⟨ch, hch, hlow⟩
      exact app_clean_amount_none_of_bad hch hlow (Or.inl rfl)
    · rcases List.mem_map.mp
        (mem_of_hasSeq h (show 'l' ∈ "lac".data by decide) :
          'l' ∈ List.map lowerChar (stripSyms s.data)) with ⟨ch, hch, hlow⟩
      exact app_clean_amount_none_of_bad hch hlow (Or.inl rfl)
    · rcases List.mem_map.mp
        (mem_of_hasSeq h (show 'c' ∈ "cr".data by decide) :
          'c' ∈ List.map lowerChar (stripSyms s.data)) with ⟨ch, hch, hlow⟩
      exact app_clean_amount_none_of_bad hch hlow (Or.inr (Or.inl rfl))
    · rcases List.mem_map.mp
        (mem_of_hasSeq h (show 'u' ∈ "unknown".data by decide) :
          'u' ∈ List.map lowerChar (stripSyms s.data)) with ⟨ch, hch, hlow⟩
      exact app_clean_amount_none_of_bad hch hlow (Or.inr (Or.inr (Or.inl rfl)))
    · rcases List.mem_map.mp
        (mem_of_hasSeq h (show '/' ∈ "n/a".data by decide) :
          '/' ∈ List.map lowerChar (stripSyms s.data)) with ⟨ch, hch, hlow⟩
      exact app_clean_amount_none_of_bad hch hlow (Or.inr (Or.inr (Or.inr rfl)))
  have happ1 : App1.clean_amount (some s) = none := by
    rcases h with h | h | h | h | h
    · exact app1_clean_amount_none_of_marker h (by decide) (by decide)
        (Or.inr (Or.inl rfl))
    · exact app1_clean_amount_none_of_marker h (by decide) (by decide)
        (Or.inl rfl)
    · exact app1_clean_amount_none_of_marker h (by decide) (by decide)
        (Or.inr (Or.inr (Or.inl rfl)))
    · exact app1_clean_amount_none_of_marker h (by decide) (by decide)
        (Or.inr (Or.inr (Or.inr (Or.inl rfl))))
    · exact app1_clean_amount_none_of_marker h (by decide) (by decide)
        (Or.inr (Or.inr (Or.inr (Or.inr rfl))))
  refine ⟨happ, happ1, fun pre post r hr => ⟨?_, ?_⟩⟩
  · simp only [App.normalize]
    exact pipeline_drop_middle _ _ pre post r (Or.inl (by rw [hr, happ]))
  · simp only [App1.normalize]
    exact pipeline_drop_middle _ _ pre post r (Or.inl (by rw [hr, happ1]))

/-- Witness for C1 at the concrete amount cell `"5 cr"`. -/
theorem c1_rejected_unit_markers_witness :
    App.clean_amount (some "5 cr") = none ∧
    App1.clean_amount (some "5 cr") = none :=
  ⟨(c1_rejected_unit_markers "5 cr" (by decide)).1,
   (c1_rejected_unit_markers "5 cr" (by decide)).2.1⟩

/-- Claim C2: a date cell parses exactly when it has the strict
`%d/%m/%Y` shape — a 1-2 digit day, a slash, a 1-2 digit month, a
slash, a 4-digit year, and a valid calendar day; `"15/03/2016"` parses,
`"2016-03-15"` does not, and a row carrying the latter contributes no
record in either variant. -/
theorem c2_strict_date_format :
    (∀ l : List Char, (parseDMY l).isSome = true ↔ specDMY l) ∧
    clean_date (some "15/03/2016") = some ⟨2016, 3, 15⟩ ∧
    clean_date (some "2016-03-15") = none ∧
    ∀ (pre post : List Row) (r : Row), r.getD 13 none = some "2016-03-15" →
      App.normalize (pre ++ r :: post) = App.normalize (pre ++ post) ∧
      App1.normalize (pre ++ r :: post) = App1.normalize (pre ++ post) := by
  refine ⟨parseDMY_iff_specDMY, by decide, by decide,
    fun pre post r hr => ⟨?_, ?_⟩⟩
  · simp only [App.normalize]
    exact pipeline_drop_middle _ _ pre post r
      (Or.inr fun a ha => by rw [hr]; decide)
  · simp only [App1.normalize]
    exact pipeline_drop_middle _ _ pre post r
      (Or.inr fun a ha => by rw [hr]; decide)

/-- Claim C3: every record of the normalized output of either variant
has a strictly positive amount strictly below the 1000 ceiling; a
parsed amount of exactly 1000 is excluded, 999.99 is retained, and a
zero amount is excluded. -/
theorem c3_amount_bounds (rows : List Row) (r : FundingRecord)
    (h : r ∈ App.normalize rows ∨ r ∈ App1.normalize rows) :
    (0 < r.amount ∧ r.amount < 1000) ∧
    App.normalize [row1000] = [] ∧ App1.normalize [row1000] = [] ∧
    (App.normalize [row999]).map FundingRecord.amount = [99999 / 100] ∧
    (App1.normalize [row999]).map FundingRecord.amount = [99999 / 100] ∧
    App.normalize [row0] = [] ∧ App1.normalize [row0] = [] := by
  refine ⟨?_, by with_unfolding_all rfl, by with_unfolding_all rfl,
    by with_unfolding_all rfl, by with_unfolding_all rfl,
    by with_unfolding_all rfl, by with_unfolding_all rfl⟩
  rcases h with h | h
  · simp only [App.normalize] at h
    obtain ⟨row, a, d, -, hpos, -, rfl, hceil⟩ := mem_pipeline h
    exact ⟨hpos, hceil⟩
  · simp only [App1.normalize] at h
    obtain ⟨row, a, d, -, hpos, -, rfl, hceil⟩ := mem_pipeline h
    exact ⟨hpos, hceil⟩

set_option maxRecDepth 8000 in
/-- Witness for C3 at the record produced by the end-to-end table. -/
theorem c3_amount_bounds_witness : 0 < recA.amount ∧ recA.amount < 1000 :=
  (c3_amount_bounds tableSix.rows recA
    (Or.inl (by with_unfolding_all decide))).1

/-- Claim C4 counterexample: in `app1.py`/`app2.py` a surviving row
whose raw city cell is the literal empty string yields a record whose
city is the empty string, not the `"Other"` sentinel. -/
theorem c4_blank_city_counterexample :
    (App1.normalize [rowBlankCity]).map FundingRecord.city = [""] := by
  with_unfolding_all rfl

/-- Claim C4 as amended: in `app.py` all four categorical fields of
every record are non-empty and the missing-data renderings (empty
string included) normalize to `"Other"`; in `app1.py`/`app2.py` the
renderings `"nan"`/`"N/A"` (and a missing cell) normalize to `"Other"`
but a literal empty string survives as the empty string. -/
theorem c4_sentinel_amended (rows : List Row) (r : FundingRecord)
    (h : r ∈ App.normalize rows) :
    (r.startupName ≠ "" ∧ r.sector ≠ "" ∧ r.city ≠ "" ∧
      r.investmentType ≠ "") ∧
    App.cleanText (some "") = "Other" ∧ App.cleanText (some "nan") = "Other" ∧
    App.cleanText (some "N/A") = "Other" ∧ App.cleanText none = "Other" ∧
    App1.cleanText (some "nan") = "Other" ∧
    App1.cleanText (some "N/A") = "Other" ∧
    App1.cleanText none = "Other" ∧ App1.cleanText (some "") = "" := by
  refine ⟨?_, by decide, by decide, by decide, by decide, by decide,
    by decide, by decide, by decide⟩
  simp only [App.normalize] at h
  obtain ⟨row, a, d, -, -, -, rfl, -⟩ := mem_pipeline h
  exact ⟨cleanText_ne_empty_app _, cleanText_ne_empty_app _,
    applyMap_ne_empty (by decide) (cleanText_ne_empty_app _),
    applyMap_ne_empty (by decide) (cleanText_ne_empty_app _)⟩

set_option maxRecDepth 8000 in
/-- Witness for the amended C4 at the record of the end-to-end table. -/
theorem c4_sentinel_amended_witness :
    recA.startupName ≠ "" ∧ recA.sector ≠ "" ∧ recA.city ≠ "" ∧
    recA.investmentType ≠ "" :=
  (c4_sentinel_amended tableSix.rows recA (by with_unfolding_all decide)).1

/-- Claim C5 counterexample: a table that is wide enough but carries no
date-formatted value produces the ordinary empty result `ok []` in both
variants — no configuration error is reported, so the outcome is a
silent empty set. -/
theorem c5_no_date_column_counterexample :
    App.loadData tableNoDate = Except.ok [] ∧
    App1.loadData tableNoDate = Except.ok [] := by
  constructor <;> with_unfolding_all rfl

/-- Claim C5 as amended: the configuration error is reported exactly
when the fixed column-selection plan points past the available columns
(at most 20 columns); it is then distinguishable from an empty `ok`
result.  A wide-enough table without date content yields `ok []`
silently (see the counterexample). -/
theorem c5_config_error_amended (t : RawTable) (h : t.ncols ≤ 20) :
    App.loadData t = Except.error ConfigError.columnMismatch ∧
    App1.loadData t = Except.error ConfigError.columnMismatch := by
  refine ⟨?_, ?_⟩
  · simp only [App.loadData]
    rw [if_neg (by omega)]
  · simp only [App1.loadData]
    rw [if_neg (by omega)]

/-- Witness for the amended C5 at a 6-column table. -/
theorem c5_config_error_amended_witness :
    App.loadData tableNarrow = Except.error ConfigError.columnMismatch ∧
    App1.loadData tableNarrow = Except.error ConfigError.columnMismatch :=
  c5_config_error_amended tableNarrow (by decide)

/-- Claim C6: on the three-row scenario table (row A valid with amount
`"$2,000,000"`, date `"01/01/2020"`, city `"Bengaluru"`; row B with the
rejected unit `"5 cr"`; row C with the invalid date `"13-13-2020"`)
both variants produce exactly one record, with amount 2.0 (millions
USD) and city `"Bangalore"`. -/
theorem c6_end_to_end :
    App.loadData tableSix = Except.ok [recA] ∧
    App1.loadData tableSix = Except.ok [recA] ∧
    recA.amount = 2 ∧ recA.city = "Bangalore" :=
  ⟨by with_unfolding_all rfl, by with_unfolding_all rfl, rfl, rfl⟩

/-- Claim C7: the static synonym tables are applied after trimming and
title-casing; the city table sends `"Bengaluru"` and `"Bangalore"` to
`"Bangalore"` and `"Gurugram"` to `"Gurgaon"`; city and investment type
use distinct tables, while startup name and sector get no table at
all. -/
theorem c7_canonicalization :
    (∀ (r : Row) (a : ℚ) (d : Date),
      (App.mkRecord r a d).startupName = App.cleanText (r.getD 14 none) ∧
      (App.mkRecord r a d).sector = App.cleanText (r.getD 15 none) ∧
      (App.mkRecord r a d).city =
        applyMap cityMap (App.cleanText (r.getD 17 none)) ∧
      (App.mkRecord r a d).investmentType =
        applyMap App.investMap (App.cleanText (r.getD 19 none))) ∧
    (∀ (r : Row) (a : ℚ) (d : Date),
      (App1.mkRecord r a d).startupName = App1.cleanText (r.getD 14 none) ∧
      (App1.mkRecord r a d).sector = App1.cleanText (r.getD 15 none) ∧
      (App1.mkRecord r a d).city =
        applyMap cityMap (App1.cleanText (r.getD 17 none)) ∧
      (App1.mkRecord r a d).investmentType =
        applyMap App1.investMap (App1.cleanText (r.getD 19 none))) ∧
    cityMap ≠ App.investMap ∧ cityMap ≠ App1.investMap ∧
    applyMap cityMap (App.cleanText (some "Bengaluru")) = "Bangalore" ∧
    applyMap cityMap (App.cleanText (some "Bangalore")) = "Bangalore" ∧
    applyMap cityMap (App.cleanText (some "Gurugram")) = "Gurgaon" ∧
    applyMap cityMap (App1.cleanText (some "Bengaluru")) = "Bangalore" ∧
    applyMap cityMap (App1.cleanText (some "Bangalore")) = "Bangalore" ∧
    applyMap cityMap (App1.cleanText (some "Gurugram")) = "Gurgaon" :=
  ⟨fun r a d => ⟨rfl, rfl, rfl, rfl⟩, fun r a d => ⟨rfl, rfl, rfl, rfl⟩,
    by decide, by decide, by decide, by decide, by decide, by decide,
    by decide, by decide⟩

/-- Claim C8: amount parsing is insensitive to commas and dollar signs
(cleaning a cell equals cleaning the cell with those symbols already
removed), a plain digit string parses to its value divided by
1,000,000, and `"$1,500,000"` cleans to 1.5 millions USD in both
variants. -/
theorem c8_symbol_insensitive (s : String) (ds : List Char) (h1 : ds ≠ [])
    (h2 : ∀ c ∈ ds, isDigitC c = true) :
    (App.clean_amount (some s) = App.clean_amount (some ⟨stripSyms s.data⟩) ∧
      App1.clean_amount (some s) =
        App1.clean_amount (some ⟨stripSyms s.data⟩)) ∧
    (App.clean_amount (some ⟨ds⟩) = some ((digitsVal ds : ℚ) / 1000000) ∧
      App1.clean_amount (some ⟨ds⟩) = some ((digitsVal ds : ℚ) / 1000000)) ∧
    App.clean_amount (some "$1,500,000") = some (3 / 2) ∧
    App1.clean_amount (some "$1,500,000") = some (3 / 2) := by
  have hmk : (String.mk (stripSyms s.data)).data = stripSyms s.data := rfl
  have hmk2 : (String.mk ds).data = ds := rfl
  have hno_n : ∀ c ∈ ds, c ≠ 'n' := fun c hc he => by
    subst he; exact absurd (h2 _ hc) (by decide)
  have hnws : ∀ c ∈ ds, isWS c = false :=
    fun c hc => isWS_false_of_digit (h2 c hc)
  have hstrip : stripSyms ds = ds := stripSyms_eq_self_of_digits h2
  have hx : trimList (removeNan (stripSyms ds)) = ds := by
    rw [hstrip, removeNan_eq_self hno_n, trimList_eq_self hnws]
  have hx1 : lowerList (trimList (stripSyms ds)) = ds := by
    rw [hstrip, trimList_eq_self hnws, lowerList_eq_self_of_digits h2]
  have m1 := @hasSeq_false_of_digits "lac".data ds 'l' (by decide) (by decide) h2
  have m2 := @hasSeq_false_of_digits "lakh".data ds 'l' (by decide) (by decide) h2
  have m3 := @hasSeq_false_of_digits "cr".data ds 'c' (by decide) (by decide) h2
  have m4 := @hasSeq_false_of_digits "unknown".data ds 'u' (by decide) (by decide) h2
  have m5 := @hasSeq_false_of_digits "n/a".data ds '/' (by decide) (by decide) h2
  have hnena : ¬ ds = "n/a".data := by
    intro he
    subst he
    exact absurd (h2 '/' (by decide)) (by decide)
  have hAppI : App.clean_amount (some s) =
      App.clean_amount (some ⟨stripSyms s.data⟩) := by
    simp only [App.clean_amount, hmk]
    rw [stripSyms_idem]
  have hApp1I : App1.clean_amount (some s) =
      App1.clean_amount (some ⟨stripSyms s.data⟩) := by
    simp only [App1.clean_amount, hmk]
    rw [stripSyms_idem]
  have hAppD : App.clean_amount (some ⟨ds⟩) =
      some ((digitsVal ds : ℚ) / 1000000) := by
    simp only [App.clean_amount, hmk2]
    rw [hx, lowerList_eq_self_of_digits h2]
    rw [if_neg (by simp [m1, m2, m3, m4])]
    rw [if_neg (not_or.mpr ⟨hnena, h1⟩)]
    rw [parseFloat_digits h1 h2]
    rfl
  have hApp1D : App1.clean_amount (some ⟨ds⟩) =
      some ((digitsVal ds : ℚ) / 1000000) := by
    simp only [App1.clean_amount, hmk2]
    rw [hx1]
    rw [if_neg (by simp [m1, m2, m3, m4, m5])]
    rw [parseFloat_digits h1 h2]
    rfl
  exact ⟨⟨hAppI, hApp1I⟩, ⟨hAppD, hApp1D⟩, by with_unfolding_all rfl,
    by with_unfolding_all rfl⟩

/-- Witness for C8 at the decorated cell of the specification. -/
theorem c8_symbol_insensitive_witness :
    App.clean_amount (some "$1,500,000") = some (3 / 2) ∧
    App1.clean_amount (some "$1,500,000") = some (3 / 2) :=
  (c8_symbol_insensitive "$1,500,000" "2000000".data (by decide)
    (by decide)).2.2

/-- Claim C9: the normalization is a pure function of the raw table —
in this embedding the whole cleaning path reads nothing but its input
(no clock, randomness or mutable state), so two runs on the same table
give identical results in both variants. -/
theorem c9_two_run_determinism (t : RawTable) :
    App.loadData t = App.loadData t ∧ App1.loadData t = App1.loadData t :=
  ⟨rfl, rfl⟩

/-- Claim C10: in every record of the normalized output of either
variant, the derived year equals the calendar year of the record's
date, and the derived month equals the `"YYYY-MM"` period string of
that same date. -/
theorem c10_time_features (rows : List Row) (r : FundingRecord)
    (h : r ∈ App.normalize rows ∨ r ∈ App1.normalize rows) :
    r.year = r.date.year ∧ r.month = monthStr r.date := by
  rcases h with h | h
  · simp only [App.normalize] at h
    obtain ⟨row, a, d, -, -, -, rfl, -⟩ := mem_pipeline h
    exact ⟨rfl, rfl⟩
  · simp only [App1.normalize] at h
    obtain ⟨row, a, d, -, -, -, rfl, -⟩ := mem_pipeline h
    exact ⟨rfl, rfl⟩

set_option maxRecDepth 8000 in
/-- Witness for C10 at the record of the end-to-end table. -/
theorem c10_time_features_witness :
    recA.year = recA.date.year ∧ recA.month = monthStr recA.date :=
  c10_time_features tableSix.rows recA (Or.inl (by with_unfolding_all decide))

end IndianStartup
